import Mathlib

/-!
Verification development for the clonal-grouping engine of the Change-O
repository (DefineClones pipeline).

The definitions below are a shallow embedding of the Python source:
  - src/changeo/Receptor.py      (allele_regex, gene_regex, parseAllele, getSeq)
  - src/bin/DefineClones.py      (filterMissing, indexByIdentity, indexByUnion,
                                  groupByGene, distanceClones, collectQueue)
  - src/changeo/Multiprocessing.py (DbData, DbResult, processDbQueue)

Python strings are `String`, Python `None` is `Option.none`, Python lists are
`List`, Python (insertion-ordered) dicts are association lists `List (κ × β)`
whose operations preserve insertion order exactly as CPython dicts do, and a
Python exception escaping a worker is `Except.error`.

`changeo/Distance.py` (calcDistances, formClusters) is not present under src/;
those two functions are modelled from the specification (sections 4.2 and 4.3)
and are marked as such in their doc comments.
-/

namespace Changeo

/-- A Python exception escaping the code under consideration. -/
inductive PyErr where
  | typeError
  deriving DecidableEq, Repr

/-! ## Regular-expression engine

Python `re` on the two patterns of Receptor.py uses leftmost, greedy,
backtracking matching.  `matchRem r cs` returns the list of possible
remainders of `cs` after a match of `r` at the head of `cs`, in the priority
order of Python's backtracking engine (greedy repetition first, left
alternative first); the head of that list is the remainder Python's `re.match`
would leave.  All atoms of the two patterns are single-character classes, so
repetition is implemented over character classes only. -/

/-- Regular expressions over single-character classes. -/
inductive Re where
  | cls (p : Char → Bool)
  | seq (a b : Re)
  | alt (a b : Re)
  | star (p : Char → Bool)

/-- Remainders after a greedy match of a class star, longest match first. -/
def starRem (p : Char → Bool) : List Char → List (List Char)
  | [] => [[]]
  | c :: cs => if p c then starRem p cs ++ [c :: cs] else [c :: cs]

/-- All remainders after a match of `r` at the head of the input, in
Python backtracking priority order. -/
def matchRem : Re → List Char → List (List Char)
  | .cls _, [] => []
  | .cls p, c :: cs => if p c then [cs] else []
  | .seq a b, cs => (matchRem a cs).flatMap (matchRem b)
  | .alt a b, cs => matchRem a cs ++ matchRem b cs
  | .star p, cs => starRem p cs

/-- One-or-more repetition of a character class (`[..]+`). -/
def plusRe (p : Char → Bool) : Re := .seq (.cls p) (.star p)

/-- A literal character. -/
def litRe (c : Char) : Re := .cls (fun d => d == c)

/-- Scan the input left to right emitting non-overlapping matches, like
Python `re.finditer`; an empty match advances the scan by one character.
`fuel` bounds the recursion; `inputLength + 1` steps always suffice. -/
def findAllAux (r : Re) : Nat → List Char → List (List Char)
  | 0, _ => []
  | fuel + 1, cs =>
    match matchRem r cs, cs with
    | rem :: _, _ =>
      let m := cs.take (cs.length - rem.length)
      if cs.length = rem.length then
        m :: (match cs with
              | [] => []
              | _ :: cs2 => findAllAux r fuel cs2)
      else
        m :: findAllAux r fuel rem
    | [], [] => []
    | [], _ :: cs2 => findAllAux r fuel cs2

/-- The list of (group 0 texts of) all matches of `r` in `cs`, in order. -/
def findAll (r : Re) (cs : List Char) : List (List Char) :=
  findAllAux r (cs.length + 1) cs

/-! ## The two gene-call patterns of Receptor.py

allele_regex = ((IG[HLK]|TR[ABGD])([VDJ][A-Z0-9]+[- / \w]*[-\*][\.\w]+))
gene_regex   = ((IG[HLK]|TR[ABGD])([VDJ][A-Z0-9]+[- / \w]*))

(the third character class is dash, slash, word, written here with spaces
so that the dash-slash pair does not end this comment).  The groups are only
used through group 0, so grouping parentheses are not modelled.  \w is
modelled as ASCII word characters (the repository's gene names are ASCII). -/

/-- ASCII word character, Python regex `\w` on the repository's data. -/
def isWordChar (c : Char) : Bool :=
  (('a' ≤ c && c ≤ 'z') || ('A' ≤ c && c ≤ 'Z') || ('0' ≤ c && c ≤ '9') || c == '_')

/-- Character class `[A-Z0-9]`. -/
def isUpperDigit (c : Char) : Bool :=
  (('A' ≤ c && c ≤ 'Z') || ('0' ≤ c && c ≤ '9'))

/-- Character class dash, slash, word (`[- / \w]` without the spaces). -/
def isDashSlashWord (c : Char) : Bool := c == '-' || c == '/' || isWordChar c

/-- Character class `[-\*]`. -/
def isDashStar (c : Char) : Bool := c == '-' || c == '*'

/-- Character class `[\.\w]`. -/
def isDotWord (c : Char) : Bool := c == '.' || isWordChar c

/-- Character class `[HLK]`. -/
def isHLK (c : Char) : Bool := c == 'H' || c == 'L' || c == 'K'

/-- Character class `[ABGD]`. -/
def isABGD (c : Char) : Bool := c == 'A' || c == 'B' || c == 'G' || c == 'D'

/-- Character class `[VDJ]`. -/
def isVDJ (c : Char) : Bool := c == 'V' || c == 'D' || c == 'J'

/-- Pattern `IG[HLK]|TR[ABGD]`. -/
def locusRe : Re :=
  .alt (.seq (litRe 'I') (.seq (litRe 'G') (.cls isHLK)))
       (.seq (litRe 'T') (.seq (litRe 'R') (.cls isABGD)))

/-- gene_regex of Receptor.py:
`(IG[HLK]|TR[ABGD])[VDJ][A-Z0-9]+[- / \w]*` (spaces not in the class). -/
def gene_regex : Re :=
  .seq locusRe (.seq (.cls isVDJ) (.seq (plusRe isUpperDigit) (.star isDashSlashWord)))

/-- allele_regex of Receptor.py: the gene pattern followed by `[-\*][\.\w]+`
(the allele pattern's text is the gene pattern's text extended by that
suffix, and regex concatenation is associative). -/
def allele_regex : Re :=
  .seq gene_regex (.seq (.cls isDashStar) (plusRe isDotWord))

/-- All matches of a compiled pattern in a string, as strings
(Python `[x.group(0) for x in regex.finditer(s)]`). -/
def reFindAll (r : Re) (s : String) : List String :=
  (findAll r s.data).map (fun cs => String.mk cs)

/-! ## sorted(set(...)) on strings

Python compares strings lexicographically by code point, which is exactly
`String.lt`.  `insertStr` inserts into a strictly sorted list, dropping
duplicates, so `sortDedup` is Python's `sorted(set(...))`. -/

/-- Lexicographic (code point) comparison of character lists: exactly the
order Python uses to compare strings (and exactly `List.lt`, the order
underlying `String.lt`, as proved below). -/
def ltChars : List Char → List Char → Bool
  | [], [] => false
  | [], _ :: _ => true
  | _ :: _, [] => false
  | a :: as, b :: bs => if a < b then true else if b < a then false else ltChars as bs

/-- Python `a < b` on strings. -/
def ltStr (a b : String) : Bool := ltChars a.data b.data

/-- Insert a string into a strictly increasing list, skipping duplicates. -/
def insertStr (x : String) : List String → List String
  | [] => [x]
  | y :: ys => if ltStr x y then x :: y :: ys else if x = y then y :: ys else y :: insertStr x ys

/-- Python `sorted(set(l))` for a list of strings. -/
def sortDedup (l : List String) : List String := l.foldr insertStr []

/-- Union of two string tuples viewed as sets:
Python `tuple(set(a).union(set(b)))`.  CPython leaves the tuple order
unspecified (hash order); the embedding fixes the canonical sorted order,
which is equal as a set. -/
def unionSorted (a b : List String) : List String := sortDedup (a ++ b)

/-- Python `set(a).isdisjoint(set(b))` for string tuples. -/
def disjointL (a b : List String) : Bool := a.all (fun x => !(b.contains x))

/-! ## parseAllele (Receptor.py, lines 694-719)

`parseAllele(alleles, regex, action)`; passing `None` for `alleles` makes
`regex.finditer` raise, which the function catches, so the result is `None`;
an empty match list is falsy and also gives `None`.  The two actions used by
the pipeline are embedded separately because they return different Python
types (`str` for first, `tuple` for set). -/

/-- parseAllele with action `first`: `match[0] if match else None`
(the first match in string order). -/
def parseAlleleFirst (alleles : Option String) (r : Re) : Option String :=
  match alleles with
  | none => none
  | some s => (reFindAll r s).head?

/-- parseAllele with action `set`: `tuple(sorted(set(match))) if match else None`. -/
def parseAlleleSet (alleles : Option String) (r : Re) : Option (List String) :=
  match alleles with
  | none => none
  | some s =>
    let m := reFindAll r s
    if m.isEmpty then none else some (sortDedup m)

/-! ## Association lists

CPython dicts preserve insertion order: lookup finds the (unique) key,
value assignment on an existing key keeps its position, assignment of a new
key appends, deletion removes the entry.  The nested preclone index of
DefineClones.py relies on this order, so dicts are embedded as association
lists with exactly those operations. -/

section Assoc
variable {κ : Type} {β : Type} [DecidableEq κ]

/-- Python `d.get(k)` / `d[k]` (as a total lookup). -/
def lookupA : List (κ × β) → κ → Option β
  | [], _ => none
  | (k, v) :: m, k2 => if k2 = k then some v else lookupA m k2

/-- Python `d[k] = v`: replace in place if present, else append. -/
def updateA : List (κ × β) → κ → β → List (κ × β)
  | [], k, v => [(k, v)]
  | (k1, v1) :: m, k, v => if k = k1 then (k, v) :: m else (k1, v1) :: updateA m k v

/-- Python `d.pop(k, None)`. -/
def removeA : List (κ × β) → κ → List (κ × β)
  | [], _ => []
  | (k1, v1) :: m, k => if k = k1 then m else (k1, v1) :: removeA m k

/-- Python `d.setdefault(k, []).extend(v)`: append `v` to the bucket of
`k`, creating the bucket at the end of the dict if absent. -/
def extendAssoc : List (κ × List β) → κ → List β → List (κ × List β)
  | [], k, v => [(k, v)]
  | (k1, v1) :: m, k, v => if k = k1 then (k1, v1 ++ v) :: m else (k1, v1) :: extendAssoc m k v

end Assoc

/-! ## Receptor records (Receptor.py)

Only the attributes the clonal-grouping engine reads are embedded.  The
reader's field parsers guarantee: v_call, d_call and j_call are the raw
column strings or `None` when the column is absent (parser `_identity`);
the junction is always a string, the empty string when the column is absent
or unparseable (parser `_sequence`); further columns land in the open
annotation bag with lower-cased keys. -/

/-- A receptor record (the attributes used by DefineClones). -/
structure Rec where
  sequence_id : String
  v_call : Option String := none
  d_call : Option String := none
  j_call : Option String := none
  junction : String := ""
  anns : List (String × String) := []
  deriving DecidableEq, Repr

/-- Lower-casing of an ASCII field name (executable rendering of Python
str.lower on the ASCII field names the pipeline uses). -/
def lowerChar (c : Char) : Char :=
  if 'A' ≤ c && c ≤ 'Z' then Char.ofNat (c.toNat + 32) else c

/-- Python field.lower() on a field name. -/
def lowerStr (s : String) : String := String.mk (s.data.map lowerChar)

/-- Receptor.getSeq via getField, specialised to the fields the pipeline
reads as sequences: the junction attribute and the open annotation bag
(field names are lower-cased by getField).  Returns `None` when the field
cannot be found. -/
def getSeq (r : Rec) (field : String) : Option String :=
  let f := lowerStr field
  if f = "junction" then some r.junction else lookupA r.anns f

/-- Python `str(x)` applied to the result of getSeq (`str(None)` is the
four-character string "None"). -/
def strOfOptSeq : Option String → String
  | some s => s
  | none => "None"

/-! ## Grouping keys (DefineClones.groupByGene `_get_key`) -/

/-- One component of a preclone grouping key: Python `None`, a string
(action first), a tuple of strings (action set), or the junction length. -/
inductive KeyPart where
  | null
  | str (s : String)
  | strset (l : List String)
  | nat (n : Nat)
  deriving DecidableEq, Repr

/-- A grouping key as stored in the preclone index. -/
abbrev GroupKey := List KeyPart

/-- mode argument of groupByGene: allele or gene call specificity. -/
inductive Mode where
  | allele
  | gene
  deriving DecidableEq, Repr

/-- action argument of groupByGene: first or set multiplicity policy. -/
inductive Action where
  | first
  | set
  deriving DecidableEq, Repr

/-- The regex selected by the mode (getVAllele/getVGene use allele_regex
resp. gene_regex). -/
def modeRegex : Mode → Re
  | .allele => allele_regex
  | .gene => gene_regex

/-- Key component for one call string under the chosen mode and action
(`rec.getVAllele(act)` etc., i.e. parseAllele on the call string). -/
def callKey (call : Option String) (mode : Mode) (act : Action) : KeyPart :=
  match act with
  | .first =>
    match parseAlleleFirst call (modeRegex mode) with
    | some s => .str s
    | none => .null
  | .set =>
    match parseAlleleSet call (modeRegex mode) with
    | some l => .strset l
    | none => .null

/-- `_get_key` of groupByGene with `group_fields = None`:
(V call key, J call key, junction length).  The reader guarantees the
junction attribute is a string, so the junction-length component is always
its length (the Python `None` guard for a missing junction never fires). -/
def getKey (mode : Mode) (act : Action) (r : Rec) : GroupKey :=
  [callKey r.v_call mode act, callKey r.j_call mode act, .nat r.junction.length]

/-- The key validity test of groupByGene:
`all(k is not None and k != '' for k in key)`.  A tuple or an integer never
equals the empty string in Python, so only the null component and the empty
string fail. -/
def keyOk (k : GroupKey) : Bool :=
  k.all fun kp =>
    match kp with
    | .null => false
    | .str s => decide (s ≠ "")
    | .strset _ => true
    | .nat _ => true

/-! ## The union-merging preclone index (DefineClones.indexByUnion)

With `group_fields = None` the nested index is
junction length → J-gene-set → V-gene-set → record list
(`f_range = [2]`).  Gene-set keys are the sorted tuples produced by
parseAllele; unions use the canonical sorted order (see unionSorted). -/

/-- The V-level dict of the nested index. -/
abbrev VDict := List (List String × List Rec)

/-- The J-level dict of the nested index. -/
abbrev JDict := List (List String × VDict)

/-- The top level of the nested set-action index, keyed by junction length. -/
abbrev SetIndex := List (Nat × JDict)

/-- The J-scanning loop of indexByUnion: walk the J keys in dict order,
and for every key not disjoint from the (growing) new J set, union it into
the new J set and record it as a match. -/
def collectJ (j0 : List String) (jd : JDict) : List String × List (List String) :=
  jd.foldl
    (fun acc e =>
      if disjointL acc.1 e.1 then acc
      else (unionSorted acc.1 e.1, acc.2 ++ [e.1]))
    (j0, [])

/-- The V-scanning loop of indexByUnion for one matched J key: walk the V
keys in dict order, and for every key not disjoint from the (growing) new
V set, union it into the new V set and record it as a match. -/
def collectV (v0 : List String) (vd : VDict) : List String × List (List String) :=
  vd.foldl
    (fun acc e =>
      if disjointL acc.1 e.1 then acc
      else (unionSorted acc.1 e.1, acc.2 ++ [e.1]))
    (v0, [])

/-- The per-matched-J pop phase of indexByUnion: scan the J key's V dict,
pop every matched V entry (collecting its records in match order), and
remove the J entry if its V dict becomes empty.  Threads the growing V set
through the whole list of matched J keys, exactly as the Python loop
mutates `key[0]` across iterations. -/
def popJs (v0 : List String) (jms : List (List String)) (jd : JDict) :
    List String × JDict × List Rec :=
  jms.foldl
    (fun acc j =>
      match lookupA acc.2.1 j with
      | none => acc
      | some vd =>
        let cv := collectV acc.1 vd
        if cv.2.isEmpty then (cv.1, acc.2.1, acc.2.2)
        else
          let vd2 := vd.filter (fun e => !(cv.2.contains e.1))
          let got := cv.2.flatMap (fun v => (lookupA vd v).getD [])
          let jd2 := if vd2.isEmpty then removeA acc.2.1 j else updateA acc.2.1 j vd2
          (cv.1, jd2, acc.2.2 ++ got))
    (v0, jd, [])

/-- The final insertion of indexByUnion: `outer_dict[key[1]]` gets
`{key[0]: val}` merged in (Python dict.update: replace if the V key exists,
else append), or a fresh entry is appended when the J key is absent. -/
def insertJV (jd : JDict) (j2 v2 : List String) (val : List Rec) : JDict :=
  match lookupA jd j2 with
  | some vd => updateA jd j2 (updateA vd v2 val)
  | none => jd ++ [(j2, [(v2, val)])]

/-- indexByUnion (DefineClones.py, lines 106-165) with
`group_fields = None`, inserting one record whose key is
(V set `vk`, J set `jk`, junction length `len`). -/
def indexByUnion (idx : SetIndex) (vk jk : List String) (len : Nat) (r : Rec) : SetIndex :=
  match lookupA idx len with
  | none =>
    -- no entry for this junction length: no J can match; setdefault then
    -- insertion appends a fresh nested entry
    idx ++ [(len, [(jk, [(vk, [r])])])]
  | some jd =>
    let cj := collectJ jk jd
    let pj := popJs vk cj.2 jd
    let val := [r] ++ pj.2.2
    updateA idx len (insertJV pj.2.1 cj.1 pj.1 val)

/-! ## groupByGene (DefineClones.py, lines 168-249) -/

/-- One step of the grouping loop under action first
(indexByIdentity: `index.setdefault(tuple(key), []).append(rec)`), with the
null-key bucket kept alongside. -/
def groupStepFirst (mode : Mode) (st : List (GroupKey × List Rec) × List Rec) (r : Rec) :
    List (GroupKey × List Rec) × List Rec :=
  let k := getKey mode .first r
  if keyOk k then (extendAssoc st.1 k [r], st.2) else (st.1, st.2 ++ [r])

/-- One step of the grouping loop under action set (indexByUnion), with the
null-key bucket kept alongside.  Under action set a valid key always has
the shape [V tuple, J tuple, junction length]. -/
def groupStepSet (mode : Mode) (st : SetIndex × List Rec) (r : Rec) : SetIndex × List Rec :=
  match getKey mode .set r with
  | [.strset vk, .strset jk, .nat len] => (indexByUnion st.1 vk jk len r, st.2)
  | _ => (st.1, st.2 ++ [r])

/-- `_flatten_dict` on the nested set-action index: depth-first flattening
into keys [junction length, J set, V set]. -/
def flattenSetIndex (idx : SetIndex) : List (GroupKey × List Rec) :=
  idx.flatMap fun e =>
    e.2.flatMap fun je =>
      je.2.map fun ve =>
        ([KeyPart.nat e.1, KeyPart.strset je.1, KeyPart.strset ve.1], ve.2)

/-- groupByGene with `group_fields = None`: the flat mapping from group key
to record list, the null-key failure bucket carrying the key `None`.
(The null bucket is listed last; the claims below do not depend on the
position of the null bucket among the groups.) -/
def groupByGene (recs : List Rec) (mode : Mode) (act : Action) :
    List (Option GroupKey × List Rec) :=
  match act with
  | .first =>
    let st := recs.foldl (groupStepFirst mode) ([], [])
    st.1.map (fun e => (some e.1, e.2)) ++ (if st.2.isEmpty then [] else [(none, st.2)])
  | .set =>
    let st := recs.foldl (groupStepSet mode) ([], [])
    (flattenSetIndex st.1).map (fun e => (some e.1, e.2)) ++
      (if st.2.isEmpty then [] else [(none, st.2)])

/-! ## DbData / DbResult (Multiprocessing.py) and filterMissing -/

/-- DbData: one unit of work (a preclone group) fed to a worker.  The id is
`None` for the null-key bucket. -/
structure DbData where
  id : Option GroupKey
  data : List Rec
  deriving DecidableEq, Repr

/-- DbResult: one worker result.  In Python `results` and `data_fail` start
as `None`; `data_fail` is embedded as a list (it is only ever read through
truthiness and iteration, for which `None` and `[]` behave alike in the
collector), and `results` keeps the `Option`. -/
structure DbResult where
  id : Option GroupKey
  data : List Rec
  results : Option (List (Nat × List Rec)) := none
  data_pass : List Rec
  data_fail : List Rec := []
  valid : Bool := false
  deriving DecidableEq, Repr

/-- Count of characters matching `[^ACGT]`
(`len(re.findall(r'[^ACGT]', seq))`). -/
def countNonACGT (s : String) : Nat :=
  (s.data.filter (fun c => !(c == 'A' || c == 'C' || c == 'G' || c == 'T'))).length

/-- The `_pass` predicate of filterMissing on `str(rec.getSeq(seq_field))`:
non-empty and at most `max_missing` non-ACGT characters. -/
def passFn (seqField : String) (maxMissing : Nat) (r : Rec) : Bool :=
  let s := strOfOptSeq (getSeq r seqField)
  decide (0 < s.length) && decide (countNonACGT s ≤ maxMissing)

/-- filterMissing (DefineClones.py, lines 47-86).  It splits the group into
data_pass / data_fail and then builds its log; the log line
`','.join([str(x) for x in data.id])` iterates the group id, which raises
TypeError when the id is Python `None` (the null-key bucket), so the whole
call raises in that case. -/
def filterMissing (seqField : String) (maxMissing : Nat) (d : DbData) :
    Except PyErr DbResult :=
  match d.id with
  | none => .error .typeError
  | some k =>
    .ok { id := some k, data := d.data,
          data_pass := d.data.filter (passFn seqField maxMissing),
          data_fail := d.data.filter (fun r => !(passFn seqField maxMissing r)) }

/-! ## Distance models, calcDistances, formClusters

distanceClones names eight substitution models and derives the n-mer window
length from the name.  The distance matrix itself is an opaque read-only
table (loaded from changeo.Distance's registry); it is a parameter here.
changeo/Distance.py is not part of src/, so calcDistances and formClusters
are modelled from the specification (sections 4.2 and 4.3). -/

/-- The eight model names accepted by DefineClones. -/
inductive ModelName where
  | ham
  | aa
  | hh_s1f
  | hh_s5f
  | mk_rs1nf
  | mk_rs5nf
  | hs1f_compat
  | m1n_compat
  deriving DecidableEq, Repr

/-- The n-mer window length per model (DefineClones.py, lines 280-285). -/
def nmerLen : ModelName → Nat
  | .hh_s5f => 5
  | .mk_rs5nf => 5
  | _ => 1

/-- Normalization mode of the distance calculation. -/
inductive Norm where
  | len
  | mut
  | none
  deriving DecidableEq, Repr

/-- Symmetrization mode of the distance calculation. -/
inductive Sym where
  | avg
  | min
  deriving DecidableEq, Repr

/-- Linkage mode of the hierarchical clustering. -/
inductive Linkage where
  | single
  | average
  | complete
  deriving DecidableEq, Repr

/-- Pad the shorter sequence with the neutral wildcard up to the longer's
length (spec 4.2: "pad the shorter with a neutral/gap-equivalent
placeholder"). -/
def padPair (a b : List Char) : List Char × List Char :=
  let n := max a.length b.length
  (a ++ List.replicate (n - a.length) 'N', b ++ List.replicate (n - b.length) 'N')

/-- Modelled from the spec: raw directional distance D(i,j) of section 4.2
(changeo/Distance.py is absent from src/).  One distance contribution per
aligned position, read from the matrix for the pair of characters; the
context window only selects the matrix row consulted, which is opaque here
because the 5-mer tables themselves are external data. -/
def rawDist (mat : Char → Char → ℚ) (a b : List Char) : ℚ :=
  let p := padPair a b
  ((p.1.zip p.2).map (fun cc => mat cc.1 cc.2)).sum

/-- Number of aligned positions where the two (padded) sequences differ. -/
def mutCount (a b : List Char) : Nat :=
  let p := padPair a b
  ((p.1.zip p.2).filter (fun cc => !(cc.1 == cc.2))).length

/-- Modelled from the spec: the symmetrized, normalized pairwise score
S(i,j) of section 4.2 (changeo/Distance.py is absent from src/).
Diagonal entries are 0; `mut` normalization with zero differing positions
is distance 0 (rational division by zero is 0 in this embedding, matching
the spec's "treat zero mutations as distance 0"). -/
def pairScore (mat : Char → Char → ℚ) (sym : Sym) (norm : Norm) (a b : List Char) : ℚ :=
  if a = b then 0
  else
    let d1 := rawDist mat a b
    let d2 := rawDist mat b a
    let s := match sym with
      | .avg => (d1 + d2) / 2
      | .min => min d1 d2
    match norm with
    | .len => s / ((max a.length b.length : ℕ) : ℚ)
    | .mut => s / ((mutCount a b : ℕ) : ℚ)
    | .none => s

/-- Modelled from the spec: calcDistances of section 4.2
(changeo/Distance.py is absent from src/): the square all-pairs matrix of
symmetrized, normalized scores over the given unique sequences.  The
window size only affects which matrix rows the external 5-mer tables
expose, so it does not appear in this model beyond the signature. -/
def calcDistances (seqs : List String) (_nmer : Nat) (mat : Char → Char → ℚ)
    (sym : Sym) (norm : Norm) : List (List ℚ) :=
  seqs.map (fun a => seqs.map (fun b => pairScore mat sym norm a.data b.data))

/-- Entry (i, j) of the distance matrix, 0 out of range. -/
def dLookup (dists : List (List ℚ)) (i j : Nat) : ℚ :=
  (((dists.get? i).getD []).get? j).getD 0

/-- Cluster-to-cluster distance under the chosen linkage (single: nearest
pair, complete: farthest pair, average: mean over pairs). -/
def clusterDist (dists : List (List ℚ)) (link : Linkage) (a b : List Nat) : ℚ :=
  let ps := a.flatMap (fun i => b.map (fun j => dLookup dists i j))
  match link with
  | .single =>
    match ps with
    | [] => 0
    | x :: xs => xs.foldl min x
  | .complete =>
    match ps with
    | [] => 0
    | x :: xs => xs.foldl max x
  | .average => ps.sum / ((ps.length : ℕ) : ℚ)

/-- The closest pair of clusters (by index in the cluster list). -/
def bestPair (dists : List (List ℚ)) (link : Linkage) (cs : List (List Nat)) :
    Option (Nat × Nat × ℚ) :=
  let idx := List.range cs.length
  (idx.flatMap (fun i => (idx.filter (fun j => i < j)).map (fun j =>
      (i, j, clusterDist dists link ((cs.get? i).getD []) ((cs.get? j).getD []))))).foldl
    (fun best p =>
      match best with
      | Option.none => some p
      | some q => if p.2.2 < q.2.2 then some p else some q)
    Option.none

/-- Merge the clusters at positions i and j (i < j) of the cluster list. -/
def mergeAt (i j : Nat) (cs : List (List Nat)) : List (List Nat) :=
  (cs.set i (((cs.get? i).getD []) ++ ((cs.get? j).getD []))).eraseIdx j

/-- Agglomerative merging: repeatedly merge the closest pair of clusters
while its linkage distance is at most the threshold. -/
def mergeLoop (dists : List (List ℚ)) (link : Linkage) (t : ℚ) :
    Nat → List (List Nat) → List (List Nat)
  | 0, cs => cs
  | fuel + 1, cs =>
    match bestPair dists link cs with
    | Option.none => cs
    | some p => if p.2.2 ≤ t then mergeLoop dists link t fuel (mergeAt p.1 p.2.1 cs) else cs

/-- Modelled from the spec: formClusters of section 4.3
(changeo/Distance.py is absent from src/): agglomerative hierarchical
clustering over the distance matrix, cut at the threshold; output[i] is the
1-based cluster id of sequence i (a single sequence gets cluster id 1
directly). -/
def formClusters (dists : List (List ℚ)) (link : Linkage) (t : ℚ) : List Nat :=
  let n := dists.length
  let final := mergeLoop dists link t n ((List.range n).map (fun i => [i]))
  (List.range n).map (fun i => (final.findIdx (fun c => c.contains i)) + 1)

/-! ## distanceClones (DefineClones.py, lines 252-328) -/

/-- All configuration of one distanceClones call.  `mat` is the loaded
distance-model table (read-only external data) and `translate` is
Bio.Seq.translate (an external collaborator), applied only under the amino
acid model. -/
structure CloneCfg where
  seqField : String := "junction"
  model : ModelName := .ham
  distance : ℚ := 0
  mat : Char → Char → ℚ := fun _ _ => 0
  norm : Norm := .len
  sym : Sym := .avg
  linkage : Linkage := .single
  translate : String → String := id

/-- The per-record sequence preparation of distanceClones:
`re.sub('[\.-]', 'N', str(seq))`, then translation under the aa model. -/
def prepSeq (cfg : CloneCfg) (s : String) : String :=
  let s2 := String.mk (s.data.map (fun c => if c == '.' || c == '-' then 'N' else c))
  if cfg.model = .aa then cfg.translate s2 else s2

/-- The unique-junction mapping loop of distanceClones.  For each record of
data_pass: `rec.getSeq(seq_field)` raising TypeError on a missing field
(`len(None)`), the early `return None` on a zero-length sequence, then
`seq_map.setdefault(seq, []).append(rec)` on the prepared sequence. -/
def buildSeqMap (cfg : CloneCfg) :
    List Rec → List (String × List Rec) → Except PyErr (Option (List (String × List Rec)))
  | [], m => .ok (some m)
  | r :: rs, m =>
    match getSeq r cfg.seqField with
    | none => .error .typeError
    | some s =>
      if s.length = 0 then .ok none
      else buildSeqMap cfg rs (extendAssoc m (prepSeq cfg s) [r])

/-- distanceClones: separate one filtered preclone group into clones.
`.ok none` is the Python `return None` (zero-length sequence found);
otherwise the DbResult comes back with `results` and `valid` updated.  The
single-unique-sequence shortcut assigns the single clone id 1 without any
distance computation. -/
def distanceClones (cfg : CloneCfg) (res : DbResult) : Except PyErr (Option DbResult) :=
  match buildSeqMap cfg res.data_pass [] with
  | .error e => .error e
  | .ok Option.none => .ok none
  | .ok (some seqMap) =>
    if seqMap.length = 1 then
      .ok (some { res with results := some [(1, res.data_pass)], valid := true })
    else
      let sequences := seqMap.map Prod.fst
      let dists := calcDistances sequences (nmerLen cfg.model) cfg.mat cfg.sym cfg.norm
      let clusters := formClusters dists cfg.linkage cfg.distance
      let cloneDict := (clusters.zip sequences).foldl
        (fun cd p => extendAssoc cd p.1 ((lookupA seqMap p.2).getD [])) []
      if cloneDict.isEmpty then .ok (some res)
      else .ok (some { res with results := some cloneDict, valid := true })

/-- One worker unit of processDbQueue (Multiprocessing.py, lines 180-184)
for the DefineClones pipeline: filterMissing then distanceClones on one
preclone group.  The result is what the worker puts on the result queue
(`none` is the Python `None` that distanceClones may return); an error is
an exception escaping the worker. -/
def workerStep (maxMissing : Nat) (cfg : CloneCfg) (g : Option GroupKey × List Rec) :
    Except PyErr (Option DbResult) :=
  match filterMissing cfg.seqField maxMissing ⟨g.1, g.2⟩ with
  | .error e => .error e
  | .ok res => distanceClones cfg res

/-! ## collectQueue (DefineClones.py, lines 331-450)

The collector pops results until it sees `None`, which it treats as the
end-of-stream sentinel.  For a truthy (valid) result it writes each clone's
records to the pass stream under a freshly incremented global clone id,
then the group's data_fail records to the fail stream; for a falsy result
it writes all of the group's records to the fail stream.  File and log
output is embedded as the two streams plus the four counters. -/

/-- The collector's mutable state. -/
structure CState where
  cloneCount : Nat := 0
  passCount : Nat := 0
  failCount : Nat := 0
  recCount : Nat := 0
  passStream : List (Nat × Rec) := []
  failStream : List Rec := []
  deriving DecidableEq, Repr

/-- The clone-writing loop of the collector's valid branch: per clone,
increment the global clone counter and write every record of the clone
with that id. -/
def writeClones (st : CState) : List (Nat × List Rec) → CState
  | [] => st
  | e :: rest =>
    writeClones
      { st with
        cloneCount := st.cloneCount + 1,
        passCount := st.passCount + e.2.length,
        passStream := st.passStream ++ e.2.map (fun r => (st.cloneCount + 1, r)) }
      rest

/-- Processing of one popped result by the collector. -/
def collectStep (st : CState) (result : DbResult) : CState :=
  let st1 := { st with recCount := st.recCount + result.data.length }
  if result.valid then
    let st2 := writeClones st1 (result.results.getD [])
    { st2 with
      failCount := st2.failCount + result.data_fail.length,
      failStream := st2.failStream ++ result.data_fail }
  else
    { st1 with
      failCount := st1.failCount + result.data.length,
      failStream := st1.failStream ++ result.data }

/-- The collector's result loop: process queue messages in order, stopping
at the first `None` (the sentinel test `if result is None: break`). -/
def collectLoop (st : CState) : List (Option DbResult) → CState
  | [] => st
  | Option.none :: _ => st
  | some r :: rest => collectLoop (collectStep st r) rest

/-- A whole collector run from the initial counters. -/
def collectRun (msgs : List (Option DbResult)) : CState :=
  collectLoop {} msgs

/-! ## Specification-side descriptions used in the theorem statements -/

/-- The messages the collector actually processes: the longest prefix
before the first sentinel. -/
def processedOf (msgs : List (Option DbResult)) : List DbResult :=
  (msgs.takeWhile Option.isSome).filterMap id

/-- The clones a processed result contributes to the pass output. -/
def resultPassRecs (r : DbResult) : List (List Rec) :=
  if r.valid then (r.results.getD []).map Prod.snd else []

/-- The records a processed result contributes to the fail output. -/
def resultFailRecs (r : DbResult) : List Rec :=
  if r.valid then r.data_fail else r.data

/-- All clones written during a run, in write order. -/
def clonesOf (msgs : List (Option DbResult)) : List (List Rec) :=
  (processedOf msgs).flatMap resultPassRecs

/-- All fail-output records of a run, in write order. -/
def failsOf (msgs : List (Option DbResult)) : List Rec :=
  (processedOf msgs).flatMap resultFailRecs

/-- The spec's description of the collector's pass output: the clones in
write order, numbered consecutively from `k`, every record of a clone
carrying its clone's number. -/
def specCloneNumbering (k : Nat) : List (List Rec) → List (Nat × Rec)
  | [] => []
  | c :: cs => c.map (fun r => (k, r)) ++ specCloneNumbering (k + 1) cs

/-! ## Concrete records used to evaluate the development on real inputs -/

/-- A record with an ambiguous V call covering genes 1-1 and 1-2 and J gene 1. -/
def recU1 : Rec :=
  { sequence_id := "R1", v_call := some "IGHV1-1*01,IGHV1-2*01",
    j_call := some "IGHJ1*01", junction := "ACGT" }

/-- A record with an ambiguous V call covering genes 1-2 and 1-3 and J gene 2. -/
def recU2 : Rec :=
  { sequence_id := "R2", v_call := some "IGHV1-2*01,IGHV1-3*01",
    j_call := some "IGHJ2*01", junction := "ACGT" }

/-- A record with V gene 1-3 and an ambiguous J call covering J genes 1 and 2. -/
def recU3 : Rec :=
  { sequence_id := "R3", v_call := some "IGHV1-3*01",
    j_call := some "IGHJ1*01,IGHJ2*01", junction := "ACGT" }

/-- A record whose V call column is absent: its grouping key is null. -/
def recNullV : Rec :=
  { sequence_id := "N1", j_call := some "IGHJ4*02", junction := "ACGTACGT" }

/-- A well-formed record. -/
def recA : Rec :=
  { sequence_id := "A", v_call := some "IGHV1-1*01", j_call := some "IGHJ1*01",
    junction := "ACGT" }

/-- A second record with the same calls and junction as recA. -/
def recB : Rec :=
  { sequence_id := "B", v_call := some "IGHV1-1*01", j_call := some "IGHJ1*01",
    junction := "ACGT" }

/-- A record with an empty junction (zero-length target sequence). -/
def recE : Rec :=
  { sequence_id := "E", v_call := some "IGHV1-1*01", j_call := some "IGHJ1*01",
    junction := "" }

/-- A filtered preclone group whose passing list contains the zero-length
record recE (as distanceClones would see it when invoked on such a group). -/
def resEmptyJ : DbResult :=
  { id := some [.nat 0], data := [recE], data_pass := [recE], data_fail := [] }

/-- A filtered two-record preclone group sharing one junction. -/
def resAB : DbResult :=
  { id := some [.str "IGHV1-1", .str "IGHJ1", .nat 4], data := [recA, recB],
    data_pass := [recA, recB], data_fail := [] }

/-- A completed valid worker result for a one-record group. -/
def resGood : DbResult :=
  { id := some [.str "IGHV1-1", .str "IGHJ1", .nat 4], data := [recA],
    data_pass := [recA], data_fail := [], results := some [(1, [recA])],
    valid := true }

/-! ## Generic lemmas about the association-list operations -/

section AssocLemmas
variable {κ : Type} {β : Type} [DecidableEq κ]

theorem flatten_singleton_map (l : List β) : (l.map (fun x => [x])).flatten = l := by
  induction l with
  | nil => rfl
  | cons x xs ih => simp [ih]

theorem extendAssoc_flatten_perm (m : List (κ × List β)) (k : κ) (v : List β) :
    List.Perm (((extendAssoc m k v).map Prod.snd).flatten)
      ((m.map Prod.snd).flatten ++ v) := by
  induction m with
  | nil => simp [extendAssoc]
  | cons e m ih =>
    obtain ⟨k1, v1⟩ := e
    rw [extendAssoc]
    by_cases h : k = k1
    · rw [if_pos h]
      simp only [List.map_cons, List.flatten_cons]
      rw [List.append_assoc, List.append_assoc]
      exact List.Perm.append_left v1 (List.perm_append_comm)
    · rw [if_neg h]
      simp only [List.map_cons, List.flatten_cons]
      rw [List.append_assoc]
      exact List.Perm.append_left v1 ih

theorem extendAssoc_keys_mem (m : List (κ × List β)) (k : κ) (v : List β) (x : κ) :
    x ∈ (extendAssoc m k v).map Prod.fst ↔ x ∈ m.map Prod.fst ∨ x = k := by
  induction m with
  | nil => simp [extendAssoc]
  | cons e m ih =>
    obtain ⟨k1, v1⟩ := e
    rw [extendAssoc]
    by_cases h : k = k1
    · subst h
      rw [if_pos rfl]
      simp only [List.map_cons, List.mem_cons]
      tauto
    · rw [if_neg h]
      simp only [List.map_cons, List.mem_cons, ih]
      tauto

theorem extendAssoc_keys_nodup (m : List (κ × List β)) (k : κ) (v : List β)
    (hm : (m.map Prod.fst).Nodup) : ((extendAssoc m k v).map Prod.fst).Nodup := by
  induction m with
  | nil => simp [extendAssoc]
  | cons e m ih =>
    obtain ⟨k1, v1⟩ := e
    rw [extendAssoc]
    simp only [List.map_cons, List.nodup_cons] at hm
    by_cases h : k = k1
    · rw [if_pos h]
      simp only [List.map_cons, List.nodup_cons]
      exact hm
    · rw [if_neg h]
      simp only [List.map_cons, List.nodup_cons]
      refine ⟨?_, ih hm.2⟩
      intro hmem
      rcases (extendAssoc_keys_mem m k v k1).mp hmem with h1 | h1
      · exact hm.1 h1
      · exact h h1.symm

theorem lookupA_eq_of_mem (m : List (κ × β)) (p : κ × β)
    (hm : (m.map Prod.fst).Nodup) (hp : p ∈ m) : lookupA m p.1 = some p.2 := by
  induction m with
  | nil => cases hp
  | cons e m ih =>
    simp only [List.map_cons, List.nodup_cons] at hm
    rcases List.mem_cons.mp hp with hp1 | hp1
    · subst hp1
      obtain ⟨k1, v1⟩ := p
      simp [lookupA]
    · have hne : p.1 ≠ e.1 := by
        intro h
        exact hm.1 (h ▸ (List.mem_map_of_mem Prod.fst hp1))
    -- the head key differs, so lookup continues in the tail
      obtain ⟨k1, v1⟩ := e
      rw [lookupA, if_neg hne]
      exact ih hm.2 hp1

theorem foldl_extendAssoc_flatten_perm (l : List (κ × List β)) (acc : List (κ × List β)) :
    List.Perm (((l.foldl (fun cd p => extendAssoc cd p.1 p.2) acc).map Prod.snd).flatten)
      ((acc.map Prod.snd).flatten ++ (l.map Prod.snd).flatten) := by
  induction l generalizing acc with
  | nil => simp
  | cons e l ih =>
    simp only [List.foldl_cons, List.map_cons, List.flatten_cons]
    refine (ih (extendAssoc acc e.1 e.2)).trans ?_
    rw [← List.append_assoc]
    exact (extendAssoc_flatten_perm acc e.1 e.2).append_right _

theorem length_filter_add_length_filter_not (l : List β) (p : β → Bool) :
    (l.filter p).length + (l.filter (fun x => !p x)).length = l.length :=
  (List.filter_append_perm p l).length_eq ▸ (List.length_append _ _).symm

end AssocLemmas

/-! ## Lemmas about sortDedup (Python sorted(set(...))) -/

theorem ltChars_iff : ∀ as bs : List Char, ltChars as bs = true ↔ as < bs := by
  intro as
  induction as with
  | nil =>
    intro bs
    cases bs with
    | nil =>
      simp only [ltChars]
      constructor
      · intro h; cases h
      · intro h; cases h
    | cons b bs =>
      simp only [ltChars, true_iff]
      exact List.Lex.nil
  | cons a as ih =>
    intro bs
    cases bs with
    | nil =>
      simp only [ltChars]
      constructor
      · intro h; cases h
      · intro h; cases h
    | cons b bs =>
      rw [ltChars]
      by_cases hab : a < b
      · rw [if_pos hab]
        simp only [true_iff]
        exact List.Lex.rel hab
      · rw [if_neg hab]
        by_cases hba : b < a
        · rw [if_pos hba]
          constructor
          · intro h; cases h
          · intro h
            exfalso
            cases h with
            | cons h => exact absurd hba (lt_irrefl _)
            | rel h => exact hab h
        · rw [if_neg hba]
          have heq : a = b := le_antisymm (not_lt.mp hba) (not_lt.mp hab)
          subst heq
          rw [ih bs]
          constructor
          · intro h
            exact List.Lex.cons h
          · intro h
            cases h with
            | cons h => exact h
            | rel h => exact absurd h hab

theorem ltStr_iff (a b : String) : ltStr a b = true ↔ a < b := by
  rw [String.lt_iff_toList_lt]
  exact ltChars_iff a.data b.data

theorem mem_insertStr (x y : String) (l : List String) :
    y ∈ insertStr x l ↔ y = x ∨ y ∈ l := by
  induction l with
  | nil => simp [insertStr]
  | cons z zs ih =>
    rw [insertStr]
    by_cases h1 : ltStr x z
    · rw [if_pos h1]
      simp only [List.mem_cons]
    · rw [if_neg h1]
      by_cases h2 : x = z
      · subst h2
        rw [if_pos rfl]
        simp only [List.mem_cons]
        tauto
      · rw [if_neg h2]
        simp only [List.mem_cons, ih]
        tauto

theorem pairwise_insertStr (x : String) (l : List String)
    (hl : l.Pairwise (· < ·)) : (insertStr x l).Pairwise (· < ·) := by
  induction l with
  | nil => simp [insertStr]
  | cons z zs ih =>
    rcases List.pairwise_cons.mp hl with ⟨hz, hzs⟩
    rw [insertStr]
    by_cases h1 : ltStr x z
    · rw [if_pos h1]
      have h1p : x < z := (ltStr_iff x z).mp h1
      refine List.pairwise_cons.mpr ⟨?_, hl⟩
      intro y hy
      rcases List.mem_cons.mp hy with h | h
      · exact h ▸ h1p
      · exact h1p.trans (hz y h)
    · rw [if_neg h1]
      by_cases h2 : x = z
      · rw [if_pos h2]
        exact hl
      · rw [if_neg h2]
        have hzx : z < x := by
          rcases lt_trichotomy x z with h | h | h
          · exact absurd ((ltStr_iff x z).mpr h) h1
          · exact absurd h h2
          · exact h
        refine List.pairwise_cons.mpr ⟨?_, ih hzs⟩
        intro y hy
        rcases (mem_insertStr x y zs).mp hy with h | h
        · exact h ▸ hzx
        · exact hz y h

theorem mem_sortDedup (y : String) (l : List String) :
    y ∈ sortDedup l ↔ y ∈ l := by
  induction l with
  | nil => simp [sortDedup]
  | cons x xs ih =>
    simp only [sortDedup, List.foldr_cons]
    rw [mem_insertStr]
    simp only [sortDedup] at ih
    rw [ih]
    simp

theorem pairwise_sortDedup (l : List String) : (sortDedup l).Pairwise (· < ·) := by
  induction l with
  | nil => simp [sortDedup]
  | cons x xs ih => exact pairwise_insertStr x _ ih

/-! ## Lemmas about the regex engine -/

/-- A sequential pattern can only match where its first factor matches. -/
theorem matchRem_seq_ne_nil (a b : Re) (cs : List Char)
    (h : matchRem (.seq a b) cs ≠ []) : matchRem a cs ≠ [] := by
  intro ha
  apply h
  simp [matchRem, ha]

/-- Unfolding of one scanning step. -/
theorem findAllAux_succ (r : Re) (fuel : Nat) (cs : List Char) :
    findAllAux r (fuel + 1) cs =
      match matchRem r cs, cs with
      | rem :: _, _ =>
        let m := cs.take (cs.length - rem.length)
        if cs.length = rem.length then
          m :: (match cs with
                | [] => []
                | _ :: cs2 => findAllAux r fuel cs2)
        else
          m :: findAllAux r fuel rem
      | [], [] => []
      | [], _ :: cs2 => findAllAux r fuel cs2 := rfl

/-- If the scan produced no match, no start position matches. -/
theorem findAllAux_nil_no_match (r : Re) :
    ∀ fuel cs, cs.length < fuel → findAllAux r fuel cs = [] →
      ∀ n, matchRem r (cs.drop n) = [] := by
  intro fuel
  induction fuel with
  | zero => intro cs h; exact absurd h (Nat.not_lt_zero _)
  | succ fuel ih =>
    intro cs hlen hnil n
    rw [findAllAux_succ] at hnil
    cases hm : matchRem r cs with
    | cons rem rems =>
      exfalso
      simp only [hm] at hnil
      split at hnil <;> simp at hnil
    | nil =>
      simp only [hm] at hnil
      cases cs with
      | nil => simpa using hm
      | cons c cs2 =>
        cases n with
        | zero => simpa using hm
        | succ n =>
          simp only [List.drop_succ_cons]
          exact ih cs2 (by simpa using Nat.lt_of_succ_lt_succ hlen) hnil n

/-- If no start position matches, the scan produces no match. -/
theorem findAllAux_nil_of_no_match (r : Re) :
    ∀ fuel cs, (∀ n, matchRem r (cs.drop n) = []) → findAllAux r fuel cs = [] := by
  intro fuel
  induction fuel with
  | zero => intro cs _; rfl
  | succ fuel ih =>
    intro cs hno
    rw [findAllAux_succ]
    have h0 : matchRem r cs = [] := by simpa using hno 0
    simp only [h0]
    cases cs with
    | nil => rfl
    | cons c cs2 =>
      exact ih cs2 (fun n => by simpa using hno (n + 1))

/-! ## Lemmas about distanceClones -/

theorem buildSeqMap_ok_flatten_perm (cfg : CloneCfg) :
    ∀ (l : List Rec) (m m2 : List (String × List Rec)),
      buildSeqMap cfg l m = .ok (some m2) →
      List.Perm ((m2.map Prod.snd).flatten) ((m.map Prod.snd).flatten ++ l) := by
  intro l
  induction l with
  | nil =>
    intro m m2 h
    simp only [buildSeqMap, Except.ok.injEq, Option.some.injEq] at h
    subst h
    simp
  | cons r rs ih =>
    intro m m2 h
    rw [buildSeqMap] at h
    cases hs : getSeq r cfg.seqField with
    | none => rw [hs] at h; cases h
    | some s =>
      simp only [hs] at h
      by_cases hz : s.length = 0
      · rw [if_pos hz] at h; cases h
      · rw [if_neg hz] at h
        have hih := ih (extendAssoc m (prepSeq cfg s) [r]) m2 h
        have hp := extendAssoc_flatten_perm m (prepSeq cfg s) [r]
        have heq : ((m.map Prod.snd).flatten ++ [r]) ++ rs =
            (m.map Prod.snd).flatten ++ (r :: rs) := by simp
        exact hih.trans ((hp.append_right rs).trans (heq ▸ List.Perm.refl _))

theorem buildSeqMap_ok_nodup (cfg : CloneCfg) :
    ∀ (l : List Rec) (m m2 : List (String × List Rec)),
      buildSeqMap cfg l m = .ok (some m2) →
      (m.map Prod.fst).Nodup → (m2.map Prod.fst).Nodup := by
  intro l
  induction l with
  | nil =>
    intro m m2 h hm
    simp only [buildSeqMap, Except.ok.injEq, Option.some.injEq] at h
    subst h
    exact hm
  | cons r rs ih =>
    intro m m2 h hm
    rw [buildSeqMap] at h
    cases hs : getSeq r cfg.seqField with
    | none => rw [hs] at h; cases h
    | some s =>
      simp only [hs] at h
      by_cases hz : s.length = 0
      · rw [if_pos hz] at h; cases h
      · rw [if_neg hz] at h
        exact ih _ m2 h (extendAssoc_keys_nodup m _ [r] hm)

theorem buildSeqMap_total (cfg : CloneCfg) :
    ∀ (l : List Rec) (m : List (String × List Rec)),
      (∀ r ∈ l, ∃ s, getSeq r cfg.seqField = some s ∧ s.length ≠ 0) →
      ∃ m2, buildSeqMap cfg l m = .ok (some m2) := by
  intro l
  induction l with
  | nil => intro m _; exact ⟨m, rfl⟩
  | cons r rs ih =>
    intro m hall
    obtain ⟨s, hs, hz⟩ := hall r (List.mem_cons_self r rs)
    rw [buildSeqMap]
    simp only [hs]
    rw [if_neg hz]
    exact ih _ (fun x hx => hall x (List.mem_cons_of_mem r hx))

theorem buildSeqMap_const_key (cfg : CloneCfg) (u : String) :
    ∀ (l : List Rec) (rs0 : List Rec),
      (∀ r ∈ l, ∃ s, getSeq r cfg.seqField = some s ∧ s.length ≠ 0 ∧ prepSeq cfg s = u) →
      buildSeqMap cfg l [(u, rs0)] = .ok (some [(u, rs0 ++ l)]) := by
  intro l
  induction l with
  | nil => intro rs0 _; simp [buildSeqMap]
  | cons r rs ih =>
    intro rs0 hall
    obtain ⟨s, hs, hz, hu⟩ := hall r (List.mem_cons_self r rs)
    rw [buildSeqMap]
    simp only [hs]
    rw [if_neg hz]
    have hext : extendAssoc [(u, rs0)] (prepSeq cfg s) [r] = [(u, rs0 ++ [r])] := by
      rw [hu]
      simp [extendAssoc]
    rw [hext]
    have := ih (rs0 ++ [r]) (fun x hx => hall x (List.mem_cons_of_mem r hx))
    simpa using this

theorem calcDistances_length (seqs : List String) (n : Nat) (mat : Char → Char → ℚ)
    (sym : Sym) (norm : Norm) : (calcDistances seqs n mat sym norm).length = seqs.length := by
  simp [calcDistances]

theorem formClusters_length (dists : List (List ℚ)) (link : Linkage) (t : ℚ) :
    (formClusters dists link t).length = dists.length := by
  simp [formClusters]

/-- Behaviour of distanceClones on a successfully returned result: the
record fields are untouched, and a valid result's clone mapping holds
exactly the passing records (shared workhorse for several claims). -/
theorem distanceClones_ok_spec (cfg : CloneCfg) (res out : DbResult)
    (hres : res.valid = false)
    (h : distanceClones cfg res = .ok (some out)) :
    out.id = res.id ∧ out.data = res.data ∧ out.data_pass = res.data_pass ∧
    out.data_fail = res.data_fail ∧
    (out.valid = true →
      List.Perm (((out.results.getD []).map Prod.snd).flatten) res.data_pass) ∧
    (out.valid = false → out = res) := by
  rw [distanceClones] at h
  cases hb : buildSeqMap cfg res.data_pass [] with
  | error e => rw [hb] at h; cases h
  | ok o =>
    cases o with
    | none => rw [hb] at h; cases h
    | some seqMap =>
      rw [hb] at h
      simp only [] at h
      have hperm : List.Perm ((seqMap.map Prod.snd).flatten) res.data_pass := by
        simpa using buildSeqMap_ok_flatten_perm cfg res.data_pass [] seqMap hb
      have hnodup : (seqMap.map Prod.fst).Nodup :=
        buildSeqMap_ok_nodup cfg res.data_pass [] seqMap hb (by simp)
      by_cases h1 : seqMap.length = 1
      · rw [if_pos h1] at h
        simp only [Except.ok.injEq, Option.some.injEq] at h
        subst h
        refine ⟨rfl, rfl, rfl, rfl, fun _ => ?_, fun hv => by simp at hv⟩
        simp
      · rw [if_neg h1] at h
        set sequences := seqMap.map Prod.fst with hseq
        set dists := calcDistances sequences (nmerLen cfg.model) cfg.mat cfg.sym cfg.norm
          with hdists
        set clusters := formClusters dists cfg.linkage cfg.distance with hclus
        set cloneDict := (clusters.zip sequences).foldl
          (fun cd p => extendAssoc cd p.1 ((lookupA seqMap p.2).getD [])) [] with hcd
        have hlen : clusters.length = sequences.length := by
          rw [hclus, formClusters_length, hdists, calcDistances_length]
        have hcdperm : List.Perm ((cloneDict.map Prod.snd).flatten) res.data_pass := by
          rw [hcd]
          have hfold :
              (clusters.zip sequences).foldl
                (fun cd p => extendAssoc cd p.1 ((lookupA seqMap p.2).getD [])) [] =
              ((clusters.zip sequences).map
                (fun p => (p.1, (lookupA seqMap p.2).getD []))).foldl
                (fun cd p => extendAssoc cd p.1 p.2) [] := by
            rw [List.foldl_map]
          rw [hfold]
          refine (foldl_extendAssoc_flatten_perm _ []).trans ?_
          simp only [List.map_nil, List.flatten_nil, List.nil_append]
          have hmapmap :
              ((clusters.zip sequences).map
                (fun p => (p.1, (lookupA seqMap p.2).getD []))).map Prod.snd =
              (clusters.zip sequences).map (fun p => (lookupA seqMap p.2).getD []) := by
            simp [List.map_map, Function.comp]
          rw [hmapmap]
          have hzipmap :
              (clusters.zip sequences).map (fun p => (lookupA seqMap p.2).getD []) =
              sequences.map (fun s => (lookupA seqMap s).getD []) := by
            have hsnd : (clusters.zip sequences).map Prod.snd = sequences :=
              List.map_snd_zip clusters sequences (le_of_eq hlen.symm)
            calc (clusters.zip sequences).map (fun p => (lookupA seqMap p.2).getD [])
                = ((clusters.zip sequences).map Prod.snd).map
                    (fun s => (lookupA seqMap s).getD []) := by
                  simp [List.map_map, Function.comp]
              _ = sequences.map (fun s => (lookupA seqMap s).getD []) := by rw [hsnd]
          rw [hzipmap, hseq]
          have hlook : seqMap.map ((fun s => (lookupA seqMap s).getD []) ∘ Prod.fst) =
              seqMap.map Prod.snd := by
            refine List.map_congr_left ?_
            intro p hp
            simp [lookupA_eq_of_mem seqMap p hnodup hp]
          rw [List.map_map, hlook]
          exact hperm
        by_cases hce : cloneDict.isEmpty
        · rw [if_pos hce] at h
          simp only [Except.ok.injEq, Option.some.injEq] at h
          subst h
          exact ⟨rfl, rfl, rfl, rfl, fun hv => absurd hv (by simp [hres]), fun _ => rfl⟩
        · rw [if_neg hce] at h
          simp only [Except.ok.injEq, Option.some.injEq] at h
          subst h
          refine ⟨rfl, rfl, rfl, rfl, fun _ => ?_, fun hv => by simp at hv⟩
          simpa using hcdperm

/-- distanceClones returns a proper result (never the Python `None`, never
an exception) when every passing record has a present, non-empty target
sequence. -/
theorem distanceClones_total (cfg : CloneCfg) (res : DbResult)
    (h : ∀ r ∈ res.data_pass, ∃ s, getSeq r cfg.seqField = some s ∧ s.length ≠ 0) :
    ∃ out, distanceClones cfg res = .ok (some out) := by
  obtain ⟨m2, hm2⟩ := buildSeqMap_total cfg res.data_pass [] h
  rw [distanceClones, hm2]
  simp only []
  by_cases h1 : m2.length = 1
  · rw [if_pos h1]; exact ⟨_, rfl⟩
  · rw [if_neg h1]
    by_cases hce : ((formClusters (calcDistances (m2.map Prod.fst) (nmerLen cfg.model)
        cfg.mat cfg.sym cfg.norm) cfg.linkage cfg.distance).zip (m2.map Prod.fst)).foldl
        (fun cd p => extendAssoc cd p.1 ((lookupA m2 p.2).getD [])) [] |>.isEmpty
    · rw [if_pos hce]; exact ⟨_, rfl⟩
    · rw [if_neg hce]; exact ⟨_, rfl⟩

/-! ## Lemmas about the collector -/

theorem processedOf_nil : processedOf [] = [] := rfl

theorem processedOf_none (msgs : List (Option DbResult)) :
    processedOf (none :: msgs) = [] := rfl

theorem processedOf_some (r : DbResult) (msgs : List (Option DbResult)) :
    processedOf (some r :: msgs) = r :: processedOf msgs := rfl

theorem clonesOf_none (msgs : List (Option DbResult)) : clonesOf (none :: msgs) = [] := rfl

theorem clonesOf_some (r : DbResult) (msgs : List (Option DbResult)) :
    clonesOf (some r :: msgs) = resultPassRecs r ++ clonesOf msgs := by
  simp [clonesOf, processedOf_some]

theorem failsOf_none (msgs : List (Option DbResult)) : failsOf (none :: msgs) = [] := rfl

theorem failsOf_some (r : DbResult) (msgs : List (Option DbResult)) :
    failsOf (some r :: msgs) = resultFailRecs r ++ failsOf msgs := by
  simp [failsOf, processedOf_some]

theorem specCloneNumbering_append (k : Nat) (a b : List (List Rec)) :
    specCloneNumbering k (a ++ b) =
      specCloneNumbering k a ++ specCloneNumbering (k + a.length) b := by
  induction a generalizing k with
  | nil => simp [specCloneNumbering]
  | cons c cs ih =>
    simp only [List.cons_append, specCloneNumbering, List.append_eq]
    rw [ih (k + 1)]
    simp only [List.append_assoc, List.length_cons]
    have h : k + 1 + cs.length = k + (cs.length + 1) := by omega
    rw [h]

theorem specCloneNumbering_map_snd (k : Nat) (cs : List (List Rec)) :
    (specCloneNumbering k cs).map Prod.snd = cs.flatten := by
  induction cs generalizing k with
  | nil => rfl
  | cons c cs ih => simp [specCloneNumbering, ih]

theorem writeClones_fields (clones : List (Nat × List Rec)) :
    ∀ st : CState,
      (writeClones st clones).cloneCount = st.cloneCount + clones.length ∧
      (writeClones st clones).passCount =
        st.passCount + ((clones.map (fun e => e.2.length)).sum) ∧
      (writeClones st clones).passStream =
        st.passStream ++ specCloneNumbering (st.cloneCount + 1) (clones.map Prod.snd) ∧
      (writeClones st clones).failCount = st.failCount ∧
      (writeClones st clones).failStream = st.failStream ∧
      (writeClones st clones).recCount = st.recCount := by
  induction clones with
  | nil => intro st; simp [writeClones, specCloneNumbering]
  | cons e rest ih =>
    intro st
    rw [writeClones]
    obtain ⟨h1, h2, h3, h4, h5, h6⟩ := ih
      { st with
        cloneCount := st.cloneCount + 1,
        passCount := st.passCount + e.2.length,
        passStream := st.passStream ++ e.2.map (fun r => (st.cloneCount + 1, r)) }
    refine ⟨?_, ?_, ?_, h4, h5, h6⟩
    · rw [h1]
      simp only [List.length_cons]
      omega
    · rw [h2]
      simp only [List.map_cons, List.sum_cons]
      omega
    · rw [h3]
      simp only [List.map_cons, specCloneNumbering, List.append_assoc]

theorem collectStep_valid_fields (st : CState) (r : DbResult) (hv : r.valid = true) :
    (collectStep st r).cloneCount = st.cloneCount + (r.results.getD []).length ∧
    (collectStep st r).passCount =
      st.passCount + (((r.results.getD []).map (fun e => e.2.length)).sum) ∧
    (collectStep st r).passStream =
      st.passStream ++ specCloneNumbering (st.cloneCount + 1)
        ((r.results.getD []).map Prod.snd) ∧
    (collectStep st r).failCount = st.failCount + r.data_fail.length ∧
    (collectStep st r).failStream = st.failStream ++ r.data_fail := by
  rw [collectStep]
  simp only [hv, if_true]
  obtain ⟨w1, w2, w3, w4, w5, _⟩ :=
    writeClones_fields (r.results.getD []) { st with recCount := st.recCount + r.data.length }
  exact ⟨by simpa using w1, by simpa using w2, by simpa using w3,
    by simp [w4], by simp [w5]⟩

theorem collectStep_invalid_fields (st : CState) (r : DbResult) (hv : r.valid = false) :
    (collectStep st r).cloneCount = st.cloneCount ∧
    (collectStep st r).passCount = st.passCount ∧
    (collectStep st r).passStream = st.passStream ∧
    (collectStep st r).failCount = st.failCount + r.data.length ∧
    (collectStep st r).failStream = st.failStream ++ r.data := by
  rw [collectStep]
  simp [hv]

/-- The collector's final state, characterized over the processed prefix of
the queue: clones written in order with consecutive ids starting after
`st.cloneCount`, counters summing the per-result contributions. -/
theorem collectLoop_fields (msgs : List (Option DbResult)) :
    ∀ st : CState,
      (collectLoop st msgs).cloneCount = st.cloneCount + (clonesOf msgs).length ∧
      (collectLoop st msgs).passCount =
        st.passCount + (((clonesOf msgs).map List.length).sum) ∧
      (collectLoop st msgs).passStream =
        st.passStream ++ specCloneNumbering (st.cloneCount + 1) (clonesOf msgs) ∧
      (collectLoop st msgs).failCount = st.failCount + (failsOf msgs).length ∧
      (collectLoop st msgs).failStream = st.failStream ++ failsOf msgs := by
  induction msgs with
  | nil =>
    intro st
    simp [collectLoop, clonesOf, failsOf, processedOf_nil, specCloneNumbering]
  | cons o rest ih =>
    intro st
    cases o with
    | none =>
      simp [collectLoop, clonesOf_none, failsOf_none, specCloneNumbering]
    | some r =>
      rw [collectLoop]
      obtain ⟨h1, h2, h3, h4, h5⟩ := ih (collectStep st r)
      rw [clonesOf_some, failsOf_some]
      by_cases hv : r.valid
      · obtain ⟨c1, c2, c3, c4, c5⟩ := collectStep_valid_fields st r hv
        have hpass : resultPassRecs r = (r.results.getD []).map Prod.snd := by
          simp [resultPassRecs, hv]
        have hfail : resultFailRecs r = r.data_fail := by
          simp [resultFailRecs, hv]
        refine ⟨?_, ?_, ?_, ?_, ?_⟩
        · rw [h1, c1, hpass]
          simp only [List.length_append, List.length_map]
          omega
        · rw [h2, c2, hpass]
          simp only [List.map_append, List.sum_append, List.map_map]
          have : ((r.results.getD []).map (List.length ∘ Prod.snd)).sum =
              ((r.results.getD []).map (fun e => e.2.length)).sum := rfl
          rw [this]
          omega
        · rw [h3, c3, c1, hpass, specCloneNumbering_append, List.append_assoc]
          have h : st.cloneCount + (r.results.getD []).length + 1 =
              st.cloneCount + 1 + ((r.results.getD []).map Prod.snd).length := by
            simp only [List.length_map]
            omega
          rw [h]
        · rw [h4, c4, hfail]
          simp only [List.length_append]
          omega
        · rw [h5, c5, hfail, List.append_assoc]
      · have hv2 : r.valid = false := by simpa using hv
        obtain ⟨c1, c2, c3, c4, c5⟩ := collectStep_invalid_fields st r hv2
        have hpass : resultPassRecs r = [] := by simp [resultPassRecs, hv2]
        have hfail : resultFailRecs r = r.data := by simp [resultFailRecs, hv2]
        refine ⟨?_, ?_, ?_, ?_, ?_⟩
        · rw [h1, c1, hpass]; simp
        · rw [h2, c2, hpass]; simp
        · rw [h3, c3, c1, hpass]; simp
        · rw [h4, c4, hfail]
          simp only [List.length_append]
          omega
        · rw [h5, c5, hfail, List.append_assoc]

/-! ## Claim C10 -/

/-- C10: filterMissing partitions every input group: each record of the
group appears in exactly one of data_pass or data_fail; a record passes if
and only if its target sequence is non-empty and contains at most
max_missing non-ACGT characters; in particular a record with an empty
target sequence is always placed in data_fail, for every max_missing. -/
theorem c10_filterMissing_partition (seqField : String) (mm : Nat) (d : DbData)
    (k : GroupKey) (hk : d.id = some k) :
    ∃ res, filterMissing seqField mm d = .ok res ∧
      res.data = d.data ∧
      res.data_pass = d.data.filter (passFn seqField mm) ∧
      res.data_fail = d.data.filter (fun r => !(passFn seqField mm r)) ∧
      List.Perm (res.data_pass ++ res.data_fail) d.data ∧
      (∀ r ∈ d.data, (r ∈ res.data_pass ↔ passFn seqField mm r = true) ∧
        (r ∈ res.data_fail ↔ passFn seqField mm r = false)) ∧
      (∀ r ∈ d.data, ∀ s, getSeq r seqField = some s →
        ((r ∈ res.data_pass ↔ (0 < s.length ∧ countNonACGT s ≤ mm)) ∧
         (s.length = 0 → r ∈ res.data_fail))) := by
  refine ⟨_, by rw [filterMissing, hk], rfl, rfl, rfl, List.filter_append_perm _ _, ?_, ?_⟩
  · intro r hr
    constructor
    · simp [List.mem_filter, hr]
    · simp [List.mem_filter, hr]
  · intro r hr s hs
    have hpf : passFn seqField mm r =
        (decide (0 < s.length) && decide (countNonACGT s ≤ mm)) := by
      simp [passFn, hs, strOfOptSeq]
    constructor
    · simp only [List.mem_filter, hr, true_and]
      rw [hpf]
      simp
    · intro h0
      simp only [List.mem_filter, hr, true_and]
      rw [hpf, h0]
      simp

/-- Witness for C10 at a concrete two-record group. -/
theorem c10_witness :
    ∃ res, filterMissing "junction" 0 { id := some [.nat 4], data := [recA, recE] } = .ok res ∧
      res.data = [recA, recE] ∧
      res.data_pass = [recA, recE].filter (passFn "junction" 0) ∧
      res.data_fail = [recA, recE].filter (fun r => !(passFn "junction" 0 r)) ∧
      List.Perm (res.data_pass ++ res.data_fail) [recA, recE] ∧
      (∀ r ∈ [recA, recE], (r ∈ res.data_pass ↔ passFn "junction" 0 r = true) ∧
        (r ∈ res.data_fail ↔ passFn "junction" 0 r = false)) ∧
      (∀ r ∈ [recA, recE], ∀ s, getSeq r "junction" = some s →
        ((r ∈ res.data_pass ↔ (0 < s.length ∧ countNonACGT s ≤ 0)) ∧
         (s.length = 0 → r ∈ res.data_fail))) :=
  c10_filterMissing_partition "junction" 0 { id := some [.nat 4], data := [recA, recE] }
    [.nat 4] rfl

/-! ## Claim C7 -/

/-- C7: a preclone group whose passing records all reduce to one identical
target sequence (after gap replacement and optional translation) skips
distance computation and clustering: distanceClones returns exactly one
clone, labelled 1, containing every passing record of the group. -/
theorem c7_single_sequence_shortcut (cfg : CloneCfg) (res : DbResult) (u : String)
    (hne : res.data_pass ≠ [])
    (hall : ∀ r ∈ res.data_pass, ∃ s, getSeq r cfg.seqField = some s ∧ s.length ≠ 0 ∧
      prepSeq cfg s = u) :
    distanceClones cfg res =
      .ok (some { res with results := some [(1, res.data_pass)], valid := true }) := by
  rw [distanceClones]
  cases hdp : res.data_pass with
  | nil => exact absurd hdp hne
  | cons r rs =>
    rw [hdp] at hall
    obtain ⟨s, hs, hz, hu⟩ := hall r (List.mem_cons_self r rs)
    rw [buildSeqMap]
    simp only [hs]
    rw [if_neg hz]
    have hext : extendAssoc [] (prepSeq cfg s) [r] = [(u, [r])] := by
      rw [hu]
      rfl
    rw [hext]
    rw [buildSeqMap_const_key cfg u rs [r]
      (fun x hx => hall x (List.mem_cons_of_mem r hx))]
    simp

/-- Witness for C7 at a concrete two-record group with one junction. -/
theorem c7_witness :
    distanceClones {} resAB =
      .ok (some { resAB with results := some [(1, resAB.data_pass)], valid := true }) := by
  refine c7_single_sequence_shortcut {} resAB "ACGT" (by decide) ?_
  intro r hr
  fin_cases hr
  · exact ⟨"ACGT", by decide, by decide, by decide⟩
  · exact ⟨"ACGT", by decide, by decide, by decide⟩

/-! ## Claim C6 -/

/-- C6: whenever clone separation succeeds on a (filtered, not yet valid)
preclone group, the clone-label-to-record-list mapping returned by
distanceClones partitions the passing records: no record is dropped and no
record is assigned to two clones (their concatenation is a permutation of
the passing sublist, which distanceClones leaves unchanged). -/
theorem c6_clone_partition (cfg : CloneCfg) (res out : DbResult)
    (hres : res.valid = false)
    (h : distanceClones cfg res = .ok (some out)) (hv : out.valid = true) :
    out.data_pass = res.data_pass ∧
    List.Perm (((out.results.getD []).map Prod.snd).flatten) out.data_pass := by
  obtain ⟨_, _, hdp, _, hperm, _⟩ := distanceClones_ok_spec cfg res out hres h
  exact ⟨hdp, hdp ▸ hperm hv⟩

/-- Witness for C6 at a concrete two-record group. -/
theorem c6_witness :
    resAB.data_pass = resAB.data_pass ∧
    List.Perm ((((some [(1, [recA, recB])] : Option (List (Nat × List Rec))).getD
      []).map Prod.snd).flatten) resAB.data_pass := by
  have h := c6_clone_partition {} resAB
    { resAB with results := some [(1, resAB.data_pass)], valid := true }
    rfl rfl rfl
  exact h

/-! ## Claim C5 -/

/-- C5 (amended): for every gene-call string with at least one
recognizable token, action first returns the first-occurring token (the
head of the finditer match list, not the lexicographically least), and
action set returns the distinct sorted set of all tokens found. -/
theorem c5_parseAllele_actions (s : String) (h : reFindAll allele_regex s ≠ []) :
    parseAlleleFirst (some s) allele_regex = (reFindAll allele_regex s).head? ∧
    ∃ l, parseAlleleSet (some s) allele_regex = some l ∧
      l.Pairwise (· < ·) ∧ (∀ x, x ∈ l ↔ x ∈ reFindAll allele_regex s) := by
  refine ⟨rfl, sortDedup (reFindAll allele_regex s), ?_, pairwise_sortDedup _,
    fun x => mem_sortDedup x _⟩
  rw [parseAlleleSet]
  simp only [List.isEmpty_iff]
  rw [if_neg h]

/-- Witness for C5 at a concrete two-allele call string. -/
theorem c5_witness :
    parseAlleleFirst (some "IGHV2-5*01,IGHV1-2*02") allele_regex =
      (reFindAll allele_regex "IGHV2-5*01,IGHV1-2*02").head? ∧
    ∃ l, parseAlleleSet (some "IGHV2-5*01,IGHV1-2*02") allele_regex = some l ∧
      l.Pairwise (· < ·) ∧
      (∀ x, x ∈ l ↔ x ∈ reFindAll allele_regex "IGHV2-5*01,IGHV1-2*02") :=
  c5_parseAllele_actions "IGHV2-5*01,IGHV1-2*02" (by decide)

/-- Counterexample for C5 as stated: on this call string the first action
returns the first-occurring name, which is not the lexicographically first
name among the tokens found. -/
theorem c5_first_not_lexicographic :
    parseAlleleFirst (some "IGHV2-5*01,IGHV1-2*02") allele_regex = some "IGHV2-5*01" ∧
    parseAlleleSet (some "IGHV2-5*01,IGHV1-2*02") allele_regex =
      some ["IGHV1-2*02", "IGHV2-5*01"] ∧
    ("IGHV1-2*02" : String) < "IGHV2-5*01" := by
  refine ⟨by decide, by decide, (ltStr_iff _ _).mp (by decide)⟩

/-! ## Claim C9 -/

/-- parseAlleleSet on a present string is None exactly when the scan finds
no match. -/
theorem parseAlleleSet_eq_none_iff (s : String) (r : Re) :
    parseAlleleSet (some s) r = none ↔ findAll r s.data = [] := by
  rw [parseAlleleSet]
  by_cases h : (reFindAll r s).isEmpty
  · rw [if_pos h]
    simp only [List.isEmpty_iff] at h
    simp only [true_iff]
    have : (findAll r s.data).map (fun cs => String.mk cs) = [] := h
    exact List.map_eq_nil_iff.mp this
  · rw [if_neg h]
    simp only [List.isEmpty_iff] at h
    constructor
    · intro hc; cases hc
    · intro hc
      exact absurd (by rw [reFindAll, hc]; rfl) h

/-- C9 (amended): extraction is deterministic (a pure function of the call
string), and whenever allele-specificity extraction finds any token,
gene-specificity extraction also finds at least one (the gene pattern
matches wherever the allele pattern matches); the allele-mode set is not in
general a string superset of the gene-mode set. -/
theorem c9_gene_extraction (s : String) :
    parseAlleleSet (some s) gene_regex = parseAlleleSet (some s) gene_regex ∧
    (parseAlleleSet (some s) allele_regex ≠ none →
      parseAlleleSet (some s) gene_regex ≠ none) := by
  refine ⟨rfl, fun ha hg => ?_⟩
  apply ha
  rw [parseAlleleSet_eq_none_iff] at hg
  rw [parseAlleleSet_eq_none_iff]
  have hnomatch : ∀ n, matchRem gene_regex (s.data.drop n) = [] :=
    findAllAux_nil_no_match gene_regex (s.data.length + 1) s.data (by omega) hg
  have hnomatch2 : ∀ n, matchRem allele_regex (s.data.drop n) = [] := by
    intro n
    have := hnomatch n
    rw [allele_regex]
    show (matchRem gene_regex (s.data.drop n)).flatMap _ = []
    rw [this]
    rfl
  exact findAllAux_nil_of_no_match allele_regex (s.data.length + 1) s.data hnomatch2

/-- Witness for C9: at this call string the allele extraction finds a
token, and the theorem yields that gene extraction does too. -/
theorem c9_witness :
    parseAlleleSet (some "IGHV1-2*02") gene_regex ≠ none :=
  (c9_gene_extraction "IGHV1-2*02").2 (by decide)

/-- Counterexample for C9 as stated: the set extracted under allele
specificity is not a superset (as strings) of the set extracted under gene
specificity: the gene token IGHV1-2 is not among the allele tokens. -/
theorem c9_allele_not_superset_of_gene :
    parseAlleleSet (some "IGHV1-2*02") gene_regex = some ["IGHV1-2"] ∧
    parseAlleleSet (some "IGHV1-2*02") allele_regex = some ["IGHV1-2*02"] ∧
    ("IGHV1-2" : String) ∉ (["IGHV1-2*02"] : List String) := by
  refine ⟨by decide, by decide, by decide⟩

/-! ## Claim C3 -/

/-- C3: a record whose V-call key component is missing is placed in the
single null-key bucket by groupByGene (bypassing clustering), but the
worker then applies filterMissing to the null-keyed group, whose log
construction iterates the Python `None` group id and raises TypeError:
the run aborts instead of routing the record to the fail output with a
zero-valued clone id. -/
theorem c3_null_key_group_crashes :
    groupByGene [recNullV] .gene .set = [(none, [recNullV])] ∧
    workerStep 0 {} (none, [recNullV]) = .error .typeError ∧
    filterMissing "junction" 0 { id := none, data := [recNullV] } = .error .typeError := by
  refine ⟨by decide, rfl, rfl⟩

/-! ## Claim C2 -/

/-- C2: the set-policy preclone grouping is not insertion-order invariant.
Three records (see recU1, recU2, recU3) produce two preclone groups when
inserted in one order and a single merged group when the first two records
are swapped: the one-pass union merge fails to retest J entries scanned
before the V set grew, so it does not reach the fixed point the claim
requires. -/
theorem c2_union_merge_order_dependent :
    (groupByGene [recU1, recU2, recU3] .gene .set).map
      (fun g => g.2.map Rec.sequence_id) = [["R1"], ["R3", "R2"]] ∧
    (groupByGene [recU2, recU1, recU3] .gene .set).map
      (fun g => g.2.map Rec.sequence_id) = [["R3", "R2", "R1"]] ∧
    (groupByGene [recU1, recU2, recU3] .gene .set).length ≠
      (groupByGene [recU2, recU1, recU3] .gene .set).length := by
  refine ⟨by decide, by decide, by decide⟩

/-! ## Claim C1 -/

/-- C1: distanceClones does signal failure (Python None) on a group whose
passing list holds a zero-length target sequence, but the collector treats
the None on the result queue as its end-of-stream sentinel: with the failed
group's None ahead of a valid group's result, nothing at all is written —
the failed group's records are not routed to the fail output and the other
group's records are lost — whereas the valid result alone would have been
written to the pass stream. -/
theorem c1_group_failure_collides_with_sentinel :
    distanceClones {} resEmptyJ = .ok none ∧
    (collectRun [none, some resGood]).passStream = [] ∧
    (collectRun [none, some resGood]).failStream = [] ∧
    (collectRun [none, some resGood]).recCount = 0 ∧
    (collectRun [some resGood]).passStream = [(1, recA)] := by
  refine ⟨rfl, rfl, rfl, rfl, rfl⟩

/-! ## Claim C4 -/

theorem flatten_flatMap {α β : Type} (l : List α) (f : α → List (List β)) :
    (l.flatMap f).flatten = l.flatMap (fun x => (f x).flatten) := by
  induction l with
  | nil => rfl
  | cons x xs ih => simp [ih]

theorem flatMap_append_perm {α β : Type} (l : List α) (f g : α → List β) :
    List.Perm (l.flatMap f ++ l.flatMap g) (l.flatMap (fun x => f x ++ g x)) := by
  induction l with
  | nil => simp
  | cons x xs ih =>
    simp only [List.flatMap_cons]
    have h1 : List.Perm ((f x ++ xs.flatMap f) ++ (g x ++ xs.flatMap g))
        ((f x ++ g x) ++ (xs.flatMap f ++ xs.flatMap g)) := by
      have h2 : List.Perm (xs.flatMap f ++ (g x ++ xs.flatMap g))
          (g x ++ (xs.flatMap f ++ xs.flatMap g)) := by
        rw [← List.append_assoc, ← List.append_assoc]
        exact (List.perm_append_comm).append_right _
      have e1 : (f x ++ xs.flatMap f) ++ (g x ++ xs.flatMap g) =
          f x ++ (xs.flatMap f ++ (g x ++ xs.flatMap g)) := by rw [List.append_assoc]
      have e2 : f x ++ (g x ++ (xs.flatMap f ++ xs.flatMap g)) =
          (f x ++ g x) ++ (xs.flatMap f ++ xs.flatMap g) := by rw [List.append_assoc]
      rw [e1, ← e2]
      exact h2.append_left _
    exact h1.trans (ih.append_left _)

theorem processedOf_map_some (outs : List DbResult) :
    processedOf (outs.map some) = outs := by
  induction outs with
  | nil => rfl
  | cons o os ih => simp [processedOf_some, ih]

/-- One worker unit on a well-formed group: filterMissing succeeds (the
group key is present), distanceClones returns a proper result, and the
result's pass-clones plus fail records are exactly the group's records. -/
theorem workerStep_conserves (mm : Nat) (cfg : CloneCfg) (k : GroupKey) (recs : List Rec)
    (hseq : ∀ r ∈ recs, getSeq r cfg.seqField ≠ none) :
    ∃ out, workerStep mm cfg (some k, recs) = .ok (some out) ∧
      out.data = recs ∧
      List.Perm ((resultPassRecs out).flatten ++ resultFailRecs out) recs := by
  rw [workerStep]
  have hres : filterMissing cfg.seqField mm ⟨some k, recs⟩ =
      .ok { id := some k, data := recs,
            data_pass := recs.filter (passFn cfg.seqField mm),
            data_fail := recs.filter (fun r => !(passFn cfg.seqField mm r)) } := rfl
  rw [hres]
  set res : DbResult :=
    { id := some k, data := recs,
      data_pass := recs.filter (passFn cfg.seqField mm),
      data_fail := recs.filter (fun r => !(passFn cfg.seqField mm r)) } with hresdef
  have hseq2 : ∀ r ∈ res.data_pass, ∃ s, getSeq r cfg.seqField = some s ∧ s.length ≠ 0 := by
    intro r hr
    have hrm : r ∈ recs ∧ passFn cfg.seqField mm r = true := by
      have : r ∈ recs.filter (passFn cfg.seqField mm) := hr
      exact ⟨(List.mem_filter.mp this).1, (List.mem_filter.mp this).2⟩
    cases hgs : getSeq r cfg.seqField with
    | none => exact absurd hgs (hseq r hrm.1)
    | some s =>
      refine ⟨s, rfl, ?_⟩
      have hp := hrm.2
      rw [passFn] at hp
      simp only [hgs, strOfOptSeq, Bool.and_eq_true, decide_eq_true_eq] at hp
      omega
  obtain ⟨out, hout⟩ := distanceClones_total cfg res hseq2
  obtain ⟨hid, hdata, hdp, hdf, hvperm, hinv⟩ := distanceClones_ok_spec cfg res out rfl hout
  refine ⟨out, hout, by rw [hdata], ?_⟩
  by_cases hv : out.valid
  · have hperm := hvperm hv
    rw [resultPassRecs, if_pos hv, resultFailRecs, if_pos hv, hdf]
    refine (List.Perm.append hperm (List.Perm.refl res.data_fail)).trans ?_
    show List.Perm (recs.filter (passFn cfg.seqField mm) ++
      recs.filter (fun r => !(passFn cfg.seqField mm r))) recs
    exact List.filter_append_perm _ recs
  · have hv2 : out.valid = false := by simpa using hv
    rw [resultPassRecs, resultFailRecs, hv2]
    simp only [if_neg Bool.false_ne_true, List.flatten_nil, List.nil_append]
    rw [hdata]

/-- The whole worker stage on a list of well-formed groups: every group
yields a proper queue message, and the messages jointly carry exactly the
input records. -/
theorem pipeline_msgs (mm : Nat) (cfg : CloneCfg) :
    ∀ groups : List (Option GroupKey × List Rec),
      (∀ g ∈ groups, g.1 ≠ none) →
      (∀ g ∈ groups, ∀ r ∈ g.2, getSeq r cfg.seqField ≠ none) →
      ∃ outs : List DbResult,
        groups.mapM (workerStep mm cfg) = .ok (outs.map some) ∧
        List.Perm
          (outs.flatMap (fun o => (resultPassRecs o).flatten ++ resultFailRecs o))
          ((groups.map Prod.snd).flatten) := by
  intro groups
  induction groups with
  | nil => intro _ _; exact ⟨[], rfl, by simp⟩
  | cons g gs ih =>
    intro hkey hseq
    obtain ⟨g1, g2⟩ := g
    obtain ⟨k, hk⟩ := Option.ne_none_iff_exists'.mp
      (hkey (g1, g2) (List.mem_cons_self _ _))
    subst hk
    obtain ⟨out, hout, hdata, hperm⟩ := workerStep_conserves mm cfg k g2
      (fun r hr => hseq (some k, g2) (List.mem_cons_self _ _) r hr)
    obtain ⟨outs, houts, hperms⟩ := ih
      (fun x hx => hkey x (List.mem_cons_of_mem _ hx))
      (fun x hx => hseq x (List.mem_cons_of_mem _ hx))
    refine ⟨out :: outs, ?_, ?_⟩
    · rw [List.mapM_cons, hout, houts]
      rfl
    · simp only [List.flatMap_cons, List.map_cons, List.flatten_cons]
      exact List.Perm.append hperm hperms

/-- C4: conservation of records through the worker/collector stages: for
every list of preclone groups whose keys are present and whose records all
carry the target sequence field, every group produces a proper result
message, and after collection the pass count plus the fail count equals the
number of input records; moreover the pass and fail streams together are a
permutation of the input records (no record duplicated, none dropped). -/
theorem c4_conservation (mm : Nat) (cfg : CloneCfg)
    (groups : List (Option GroupKey × List Rec))
    (hkey : ∀ g ∈ groups, g.1 ≠ none)
    (hseq : ∀ g ∈ groups, ∀ r ∈ g.2, getSeq r cfg.seqField ≠ none) :
    ∃ msgs : List (Option DbResult),
      groups.mapM (workerStep mm cfg) = .ok msgs ∧
      (collectRun msgs).passCount + (collectRun msgs).failCount =
        ((groups.map Prod.snd).flatten).length ∧
      List.Perm
        ((collectRun msgs).passStream.map Prod.snd ++ (collectRun msgs).failStream)
        ((groups.map Prod.snd).flatten) := by
  obtain ⟨outs, hmapM, hperm⟩ := pipeline_msgs mm cfg groups hkey hseq
  obtain ⟨f1, f2, f3, f4, f5⟩ := collectLoop_fields (outs.map some) {}
  have hproc : processedOf (outs.map some) = outs := processedOf_map_some outs
  have hclones : clonesOf (outs.map some) = outs.flatMap resultPassRecs := by
    rw [clonesOf, hproc]
  have hfails : failsOf (outs.map some) = outs.flatMap resultFailRecs := by
    rw [failsOf, hproc]
  have hbig : List.Perm
      ((clonesOf (outs.map some)).flatten ++ failsOf (outs.map some))
      ((groups.map Prod.snd).flatten) := by
    rw [hclones, hfails, flatten_flatMap]
    exact (flatMap_append_perm outs _ _).trans hperm
  have hrun : collectRun (outs.map some) = collectLoop {} (outs.map some) := rfl
  refine ⟨outs.map some, hmapM, ?_, ?_⟩
  · rw [hrun, f2, f4]
    have hlen := hbig.length_eq
    rw [List.length_append, List.length_flatten] at hlen
    have h2 : ({} : CState).passCount = 0 := rfl
    have h4 : ({} : CState).failCount = 0 := rfl
    rw [h2, h4]
    omega
  · rw [hrun, f3, f5]
    have h3 : ({} : CState).passStream = [] := rfl
    have h5 : ({} : CState).failStream = [] := rfl
    have hcc : ({} : CState).cloneCount = 0 := rfl
    rw [h3, h5, hcc]
    simp only [List.nil_append, List.map_append]
    rw [specCloneNumbering_map_snd]
    exact hbig

/-- Witness for C4 at a concrete one-group input. -/
theorem c4_witness :
    ∃ msgs : List (Option DbResult),
      ([(some ([.str "IGHV1-1", .str "IGHJ1", .nat 4] : GroupKey), [recA, recE])].mapM
        (workerStep 0 {})) = .ok msgs ∧
      (collectRun msgs).passCount + (collectRun msgs).failCount =
        (([(some ([.str "IGHV1-1", .str "IGHJ1", .nat 4] : GroupKey),
          [recA, recE])].map Prod.snd).flatten).length ∧
      List.Perm
        ((collectRun msgs).passStream.map Prod.snd ++ (collectRun msgs).failStream)
        (([(some ([.str "IGHV1-1", .str "IGHJ1", .nat 4] : GroupKey),
          [recA, recE])].map Prod.snd).flatten) :=
  c4_conservation 0 {} _ (by decide) (by decide)

/-! ## Claim C8 -/

theorem mem_specCloneNumbering (cs : List (List Rec)) :
    ∀ (k : Nat) (p : Nat × Rec), p ∈ specCloneNumbering k cs →
      k ≤ p.1 ∧ p.1 < k + cs.length := by
  induction cs with
  | nil => intro k p hp; cases hp
  | cons c rest ih =>
    intro k p hp
    rw [specCloneNumbering] at hp
    rcases List.mem_append.mp hp with h | h
    · obtain ⟨r, _, hr⟩ := List.mem_map.mp h
      rw [← hr]
      simp only [List.length_cons]
      omega
    · have := ih (k + 1) p h
      simp only [List.length_cons]
      omega

/-- C8: the collector's pass output is exactly the clones of the processed
results, in write order, numbered consecutively from 1 (a fresh identifier
per clone, all records of one clone sharing it); consequently every
assigned clone id is a positive integer bounded by the final clone count,
and ids are globally unique and strictly increasing in clone write order. -/
theorem c8_clone_id_numbering (msgs : List (Option DbResult)) :
    (collectRun msgs).passStream = specCloneNumbering 1 (clonesOf msgs) ∧
    (collectRun msgs).cloneCount = (clonesOf msgs).length ∧
    (∀ p ∈ (collectRun msgs).passStream,
      1 ≤ p.1 ∧ p.1 ≤ (collectRun msgs).cloneCount) := by
  obtain ⟨f1, _, f3, _, _⟩ := collectLoop_fields msgs {}
  have hrun : collectRun msgs = collectLoop {} msgs := rfl
  have h3 : ({} : CState).passStream = [] := rfl
  have hcc : ({} : CState).cloneCount = 0 := rfl
  refine ⟨?_, ?_, ?_⟩
  · rw [hrun, f3, h3, hcc, List.nil_append]
  · rw [hrun, f1, hcc, Nat.zero_add]
  · intro p hp
    rw [hrun, f3, h3, hcc, List.nil_append] at hp
    have := mem_specCloneNumbering (clonesOf msgs) 1 p hp
    rw [hrun, f1, hcc, Nat.zero_add]
    omega

end Changeo
